import Mathlib

/-
Verification of the Referral & Membership-Gated Ledger (src/bot.py).

The Python program keeps three in-memory tables (`data_manager.users`,
`data_manager.referrals`, `data_manager.pending_referrals` backup file) and
mutates them through the `UserManager` / `Storage` operations.  Python dicts
are modelled as insertion-ordered association lists with the exact
read / write / delete semantics of `d[k]`, `d[k] = v`, `del d[k]`.
Monetary amounts (Python floats, always used with at most two decimals and
exact small integers here) are modelled as rationals.
-/

namespace RefBot

/-- One entry of a user's `transactions` list (src/bot.py lines 622-628).
The `date` field (a wall-clock timestamp) is not modelled. -/
structure Txn where
  id : Nat
  amount : ℚ
  txType : String
  description : String
deriving DecidableEq

/-- A user record as created by `UserManager.get_user` (src/bot.py lines
589-601).  `joined_at` / `last_active` timestamps are not modelled. -/
structure User where
  userId : Int
  balance : ℚ
  referralCode : String
  referralCount : Nat
  totalEarned : ℚ
  totalWithdrawn : ℚ
  transactions : List Txn
  hasJoinedChannels : Bool
  welcomeBonusReceived : Bool
deriving DecidableEq

/-- The shared mutable region: `data_manager.users`,
`data_manager.referrals` (referred_id to referrer_id) and the pending
referral table of the file-backed storage
(`pending_referrals_backup.json`, referred_id to referrer_id; the file
stores no timestamp, src/bot.py lines 350-358). -/
structure BotState where
  users : List (Int × User)
  referrals : List (Int × Int)
  pendingReferrals : List (Int × Int)
deriving DecidableEq

/-- Python `d.get(k)` on an insertion-ordered dict. -/
def dictGet (l : List (Int × α)) (k : Int) : Option α :=
  match l with
  | [] => none
  | p :: t => if p.1 = k then some p.2 else dictGet t k

/-- Python `d[k] = v`: replace in place if the key exists, else append. -/
def dictSet (l : List (Int × α)) (k : Int) (v : α) : List (Int × α) :=
  match l with
  | [] => [(k, v)]
  | p :: t => if p.1 = k then (k, v) :: t else p :: dictSet t k v

/-- Python `del d[k]` (keys are unique in a dict, so removing the first
occurrence is exact). -/
def dictDel (l : List (Int × α)) (k : Int) : List (Int × α) :=
  match l with
  | [] => []
  | p :: t => if p.1 = k then t else p :: dictDel t k

/-- The state of a fresh process with no stored data. -/
def initialState : BotState := { users := [], referrals := [], pendingReferrals := [] }

/-- The user record created on first contact (src/bot.py lines 589-601). -/
def newUser (uid : Int) : User :=
  { userId := uid
    balance := 0
    referralCode := "REF" ++ toString uid
    referralCount := 0
    totalEarned := 0
    totalWithdrawn := 0
    transactions := []
    hasJoinedChannels := false
    welcomeBonusReceived := false }

/-- `UserManager.get_user` (src/bot.py lines 580-605): return the stored
record, or create one lazily. -/
def get_user (s : BotState) (uid : Int) : User × BotState :=
  match dictGet s.users uid with
  | some u => (u, s)
  | none => (newUser uid, { s with users := dictSet s.users uid (newUser uid) })

/-- `UserManager.update_user` (src/bot.py lines 608-615): merge updates into
the stored record if the user exists, else do nothing.  The update
dictionaries passed by the callers are modelled as functions on the record
(the `last_active` timestamp is not modelled). -/
def update_user (s : BotState) (uid : Int) (f : User → User) : BotState :=
  match dictGet s.users uid with
  | some u => { s with users := dictSet s.users uid (f u) }
  | none => s

/-- Keep only the newest 50 entries, as `user['transactions'][-50:]`
(src/bot.py lines 635-636). -/
def pruneTxns (ts : List Txn) : List Txn :=
  if ts.length > 50 then ts.drop (ts.length - 50) else ts

/-- `UserManager.add_transaction` (src/bot.py lines 618-638): fetch the
user (creating lazily), give the new transaction the id
`len(transactions) + 1`, append, truncate to the last 50, store the whole
record back through `update_user`. -/
def add_transaction (s : BotState) (uid : Int) (amount : ℚ) (txType description : String) : BotState :=
  let r := get_user s uid
  let tx : Txn := { id := r.1.transactions.length + 1
                    amount := amount, txType := txType, description := description }
  update_user r.2 uid (fun _ => { r.1 with transactions := pruneTxns (r.1.transactions ++ [tx]) })

/-- Description string of the welcome-bonus transaction (src/bot.py line 731). -/
def welcomeDescr : String := "Welcome bonus for joining all channels"

/-- Description string of the referral-bonus transaction (src/bot.py line 687). -/
def refDescr (referredId : Int) : String :=
  "Referral bonus for user " ++ toString referredId ++ " (joined all channels)"

/-- `UserManager.give_welcome_bonus` (src/bot.py lines 711-735). -/
def give_welcome_bonus (s : BotState) (uid : Int) : Bool × BotState :=
  let r := get_user s uid
  if r.1.welcomeBonusReceived then (false, r.2)
  else
    let s2 := update_user r.2 uid (fun v =>
      { v with balance := r.1.balance + 1
               welcomeBonusReceived := true
               totalEarned := r.1.totalEarned + 1 })
    (true, add_transaction s2 uid 1 "credit" welcomeDescr)

/-- `UserManager.is_referred` (src/bot.py lines 641-644). -/
def is_referred (s : BotState) (uid : Int) : Bool :=
  (dictGet s.referrals uid).isSome

/-- `UserManager.add_referral` (src/bot.py lines 655-691): reject self
referral, reject an already-referred user, otherwise record the completed
referral and credit the referrer. -/
def add_referral (s : BotState) (referrerId referredId : Int) : Bool × BotState :=
  if referrerId = referredId then (false, s)
  else if (dictGet s.referrals referredId).isSome then (false, s)
  else
    let s1 : BotState := { s with referrals := dictSet s.referrals referredId referrerId }
    let r := get_user s1 referrerId
    let s3 := update_user r.2 referrerId (fun v =>
      { v with balance := r.1.balance + 1
               referralCount := r.1.referralCount + 1
               totalEarned := r.1.totalEarned + 1 })
    (true, add_transaction s3 referrerId 1 "credit" (refDescr referredId))

/-- `UserManager.add_pending_referral` via
`Storage._save_pending_referral_sync`, file backend (src/bot.py lines
350-358): an upsert keyed by the referred user; no timestamp is written. -/
def add_pending_referral (s : BotState) (referrerId referredId : Int) : BotState :=
  { s with pendingReferrals := dictSet s.pendingReferrals referredId referrerId }

/-- `UserManager.get_pending_referrer` via
`Storage._get_pending_referrer_sync`, file backend (src/bot.py lines
408-414): a plain lookup, with no expiry condition. -/
def get_pending_referrer (s : BotState) (uid : Int) : Option Int :=
  dictGet s.pendingReferrals uid

/-- `UserManager.remove_pending_referral` via
`Storage._remove_pending_referral_sync`, file backend (src/bot.py lines
377-385). -/
def remove_pending_referral (s : BotState) (uid : Int) : BotState :=
  { s with pendingReferrals := dictDel s.pendingReferrals uid }

/-- The outcome of one membership probe issued by `check_single_channel`
(src/bot.py lines 768-792): the `get_chat_member` call can time out, raise,
or return a member object carrying a status string. -/
inductive ProbeResult
  | probeTimeout
  | probeError
  | status (st : String)
deriving DecidableEq

/-- `check_single_channel` (src/bot.py lines 768-792): timeouts and errors
yield `False`; otherwise the user counts as joined exactly when the
returned status is not `left` and not `kicked`. -/
def check_single_channel (pr : ProbeResult) : Bool :=
  match pr with
  | .probeTimeout => false
  | .probeError => false
  | .status st => !(st == "left" || st == "kicked")

/-- A configured channel (src/bot.py lines 506-510; `added_at` is not
modelled). -/
structure Channel where
  chatId : String
  name : String
deriving DecidableEq

/-- `check_channel_membership` (src/bot.py lines 737-766): an empty channel
list short-circuits to satisfied; otherwise one probe per channel runs and
every channel whose probe raised or returned `False` is collected into
`not_joined`; satisfied is `len(not_joined) == 0`.  The probe outcomes are
passed positionally, as `asyncio.gather` returns them. -/
def check_channel_membership (channels : List Channel) (probes : List ProbeResult) :
    Bool × List Channel :=
  if channels.isEmpty then (true, [])
  else
    let notJoined := ((channels.zip probes).filter
      (fun cr => ! check_single_channel cr.2)).map Prod.fst
    (notJoined.length == 0, notJoined)

/-- The outcome, as shown to the user, of the referral-code block of
`start_command` (src/bot.py lines 882-931).  `noAction` covers the two
silent paths (unknown code, and a found referrer whose id is falsy while
different from the caller). -/
inductive RefCodeOutcome
  | alreadyReferred
  | pendingKept
  | pendingCreated
  | selfReferral
  | noAction
deriving DecidableEq

/-- The referrer-lookup loop of `start_command` (src/bot.py lines 896-900):
scan the users table in insertion order and stop at the first user whose
`referral_code` equals the presented code. -/
def findReferrer (users : List (Int × User)) (code : String) : Option Int :=
  match users with
  | [] => none
  | p :: t => if p.2.referralCode = code then some p.1 else findReferrer t code

/-- The referral-code block of `start_command` (src/bot.py lines 882-931),
including the Python truthiness tests `if referrer_found and ...` and
`if existing_pending:` (an id equal to 0 is falsy). -/
def handle_referral_code (s : BotState) (uid : Int) (code : String) :
    RefCodeOutcome × BotState :=
  if is_referred s uid then (.alreadyReferred, s)
  else
    match findReferrer s.users code with
    | some f =>
        if f ≠ 0 ∧ f ≠ uid then
          match get_pending_referrer s uid with
          | some p =>
              if p ≠ 0 then (.pendingKept, s)
              else (.pendingCreated, add_pending_referral s f uid)
          | none => (.pendingCreated, add_pending_referral s f uid)
        else if f = uid then (.selfReferral, s)
        else (.noAction, s)
    | none => (.noAction, s)

/-- The verified branch shared by `start_command` (src/bot.py lines
944-986) and `verify_join_callback` (lines 1145-1186): mark the channels
joined, pay the welcome bonus at most once, and promote a pending referral
when one exists (Python truthiness: a pending referrer id of 0 is falsy)
and the user was not already referred.  Returns (welcome bonus given,
referral promoted) with the final state. -/
def verified_branch (s : BotState) (uid : Int) : (Bool × Bool) × BotState :=
  let s1 := update_user s uid (fun u => { u with hasJoinedChannels := true })
  let wbr := give_welcome_bonus s1 uid
  match get_pending_referrer wbr.2 uid with
  | some r =>
      if r ≠ 0 ∧ is_referred wbr.2 uid = false then
        let ar := add_referral wbr.2 r uid
        if ar.1 then ((wbr.1, true), remove_pending_referral ar.2 uid)
        else ((wbr.1, false), ar.2)
      else ((wbr.1, false), wbr.2)
  | none => ((wbr.1, false), wbr.2)

/-- The gate of `start_command` (src/bot.py lines 934-949): run the
membership check; when some channel is outstanding only the join buttons
are shown (no reward logic), otherwise the verified branch runs. -/
def startGate (s : BotState) (uid : Int) (channels : List Channel)
    (probes : List ProbeResult) : (Bool × Bool) × BotState :=
  let chk := check_channel_membership channels probes
  if chk.1 = false ∧ chk.2 ≠ [] then ((false, false), s)
  else verified_branch s uid

/-- Result of the numeric core of `withdraw_command` (src/bot.py lines
1309-1338). -/
inductive WithdrawResult
  | belowMinimum
  | insufficient
  | accepted
deriving DecidableEq

/-- The numeric core of `withdraw_command` (src/bot.py lines 1309-1338):
reject amounts below the 10-rupee minimum before touching the ledger,
reject amounts above the balance, otherwise debit and record the
withdrawal transaction. -/
def withdraw_command (s : BotState) (uid : Int) (amount : ℚ) (method : String) :
    WithdrawResult × BotState :=
  if amount < 10 then (.belowMinimum, s)
  else
    let r := get_user s uid
    if r.1.balance < amount then (.insufficient, r.2)
    else
      let s2 := update_user r.2 uid (fun v =>
        { v with balance := r.1.balance - amount
                 totalWithdrawn := r.1.totalWithdrawn + amount })
      (.accepted, add_transaction s2 uid (-amount) "withdrawal" ("Withdrawal via " ++ method))

/-- One ledger-touching interaction, for stating whole-lifetime invariants:
lazy user creation, the welcome bonus, a referral promotion, a withdrawal
request, the joined-channels flag update, and the pending-referral table
updates. -/
inductive LedgerOp
  | touch (uid : Int)
  | welcome (uid : Int)
  | referral (referrerId referredId : Int)
  | withdrawal (uid : Int) (amount : ℚ) (method : String)
  | gate (uid : Int)
  | pendAdd (referrerId referredId : Int)
  | pendRemove (uid : Int)

/-- Apply one operation to the shared state. -/
def runOp (s : BotState) : LedgerOp → BotState
  | .touch uid => (get_user s uid).2
  | .welcome uid => (give_welcome_bonus s uid).2
  | .referral r d => (add_referral s r d).2
  | .withdrawal uid a m => (withdraw_command s uid a m).2
  | .gate uid => update_user s uid (fun u => { u with hasJoinedChannels := true })
  | .pendAdd r d => add_pending_referral s r d
  | .pendRemove uid => remove_pending_referral s uid

/-- Apply a whole interaction history. -/
def runOps (s : BotState) (ops : List LedgerOp) : BotState :=
  List.foldl runOp s ops

/-- Sum of the `amount` fields of a transaction list. -/
def txSum (ts : List Txn) : ℚ := (ts.map Txn.amount).sum

/-- Number of stored transactions carrying a given description. -/
def countDescr (ts : List Txn) (d : String) : Nat :=
  (ts.filter (fun t => t.description == d)).length

/-- Number of completed-referral records for a given referred user. -/
def countKey (l : List (Int × Int)) (k : Int) : Nat :=
  (l.filter (fun p => p.1 == k)).length

/-- The record `add_transaction` stores back for an existing user: the new
transaction gets id `len + 1`, is appended, and the list is pruned. -/
def txApplied (u : User) (a : ℚ) (ty d : String) : User :=
  { u with transactions := pruneTxns (u.transactions ++
      [{ id := u.transactions.length + 1, amount := a,
         txType := ty, description := d }]) }

/-- The record a successful `give_welcome_bonus` stores for its user: the
`update_user` merge of src/bot.py lines 720-724 followed by the
`add_transaction` of lines 727-732. -/
def welcomeApplied (u : User) : User :=
  { u with balance := u.balance + 1
           welcomeBonusReceived := true
           totalEarned := u.totalEarned + 1
           transactions := pruneTxns (u.transactions ++
             [{ id := u.transactions.length + 1, amount := 1,
                txType := "credit", description := welcomeDescr }]) }

/-- The record a successful `add_referral` stores for the referrer: the
`update_user` merge of src/bot.py lines 676-680 followed by the
`add_transaction` of lines 683-688. -/
def referralApplied (u : User) (referredId : Int) : User :=
  { u with balance := u.balance + 1
           referralCount := u.referralCount + 1
           totalEarned := u.totalEarned + 1
           transactions := pruneTxns (u.transactions ++
             [{ id := u.transactions.length + 1, amount := 1,
                txType := "credit", description := refDescr referredId }]) }

/-- The record an accepted withdrawal stores for its user: the
`update_user` merge of src/bot.py lines 1327-1330 followed by the
`add_transaction` of lines 1333-1338. -/
def withdrawApplied (u : User) (amount : ℚ) (method : String) : User :=
  { u with balance := u.balance - amount
           totalWithdrawn := u.totalWithdrawn + amount
           transactions := pruneTxns (u.transactions ++
             [{ id := u.transactions.length + 1, amount := -amount,
                txType := "withdrawal", description := "Withdrawal via " ++ method }]) }

/-- Iterated `give_welcome_bonus` for one user (repeated onboarding). -/
def wbIter (s : BotState) (uid : Int) : Nat → BotState
  | 0 => s
  | n + 1 => (give_welcome_bonus (wbIter s uid n) uid).2

/-- Iterated `add_referral` for one (referrer, referred) pair (repeated
promotion attempts). -/
def arIter (s : BotState) (r d : Int) : Nat → BotState
  | 0 => s
  | n + 1 => (add_referral (arIter s r d n) r d).2

/-- Iterated `add_transaction` of a one-rupee credit for one user. -/
def txIter (s : BotState) (uid : Int) : Nat → BotState
  | 0 => s
  | n + 1 => add_transaction (txIter s uid n) uid 1 "credit" "tx"

/-- Ledger shape of one user: the stored transaction list never exceeds the
50-entry cap, and the balance is the sum of the stored amounts plus the
amounts of some pruned-away prefix, which is empty unless the list sits at
the cap. -/
def ledgerPair (b : ℚ) (ts : List Txn) : Prop :=
  ts.length ≤ 50 ∧
  ∃ dr : List ℚ, b = dr.sum + txSum ts ∧ (dr ≠ [] → ts.length = 50)

/-- Per-user invariant maintained by every ledger operation. -/
def userInv (u : User) : Prop :=
  ledgerPair u.balance u.transactions ∧ 0 ≤ u.balance

/-- The user-table invariant: every stored record satisfies `userInv`. -/
def usersInv (l : List (Int × User)) : Prop :=
  ∀ k u, dictGet l k = some u → userInv u

theorem dictGet_dictSet_self (l : List (Int × α)) (k : Int) (v : α) :
    dictGet (dictSet l k v) k = some v := by
  induction l with
  | nil => simp [dictGet, dictSet]
  | cons p t ih =>
      by_cases h : p.1 = k
      · simp [dictSet, h, dictGet]
      · simp [dictSet, h, dictGet, ih]

theorem dictGet_dictSet_ne (l : List (Int × α)) (k j : Int) (v : α) (h : j ≠ k) :
    dictGet (dictSet l k v) j = dictGet l j := by
  induction l with
  | nil => simp [dictGet, dictSet, Ne.symm h]
  | cons p t ih =>
      by_cases hp : p.1 = k
      · have hpj : p.1 ≠ j := by rw [hp]; exact Ne.symm h
        simp only [dictSet, if_pos hp, dictGet, if_neg hpj]
        simp [Ne.symm h]
      · simp only [dictSet, if_neg hp, dictGet, ih]

theorem dictSet_dictSet (l : List (Int × α)) (k : Int) (v w : α) :
    dictSet (dictSet l k v) k w = dictSet l k w := by
  induction l with
  | nil => simp [dictSet]
  | cons p t ih =>
      by_cases h : p.1 = k
      · simp [dictSet, h]
      · simp [dictSet, h, ih]

theorem dictGet_none_key_ne (l : List (Int × α)) (k : Int)
    (h : dictGet l k = none) : ∀ p ∈ l, p.1 ≠ k := by
  induction l with
  | nil => intro p hp; simp at hp
  | cons q t ih =>
      intro p hp
      by_cases hq : q.1 = k
      · rw [dictGet, if_pos hq] at h; exact absurd h (by simp)
      · rw [dictGet, if_neg hq] at h
        rcases List.mem_cons.mp hp with he | ht
        · rw [he]; exact hq
        · exact ih h p ht

theorem dictGet_some_mem (l : List (Int × α)) (k : Int) (v : α)
    (h : dictGet l k = some v) : (k, v) ∈ l := by
  induction l with
  | nil => simp [dictGet] at h
  | cons q t ih =>
      by_cases hq : q.1 = k
      · rw [dictGet, if_pos hq] at h
        have : q = (k, v) := by
          cases q with
          | mk q1 q2 => cases h; cases hq; rfl
        rw [← this]; exact List.mem_cons_self q t
      · rw [dictGet, if_neg hq] at h
        exact List.mem_cons_of_mem q (ih h)

theorem dictSet_of_none (l : List (Int × α)) (k : Int) (v : α)
    (h : dictGet l k = none) : dictSet l k v = l ++ [(k, v)] := by
  induction l with
  | nil => simp [dictSet]
  | cons q t ih =>
      by_cases hq : q.1 = k
      · rw [dictGet, if_pos hq] at h; exact absurd h (by simp)
      · rw [dictGet, if_neg hq] at h
        simp [dictSet, hq, ih h]

theorem countKey_of_none (l : List (Int × Int)) (k : Int)
    (h : dictGet l k = none) : countKey l k = 0 := by
  have hne := dictGet_none_key_ne l k h
  unfold countKey
  rw [List.length_eq_zero, List.filter_eq_nil_iff]
  intro p hp
  simp [beq_iff_eq]
  exact hne p hp

theorem countKey_append (l₁ l₂ : List (Int × Int)) (k : Int) :
    countKey (l₁ ++ l₂) k = countKey l₁ k + countKey l₂ k := by
  simp [countKey, List.filter_append]

theorem get_user_present (s : BotState) (uid : Int) (u : User)
    (h : dictGet s.users uid = some u) : get_user s uid = (u, s) := by
  simp [get_user, h]

theorem get_user_absent (s : BotState) (uid : Int)
    (h : dictGet s.users uid = none) :
    get_user s uid = (newUser uid, { s with users := dictSet s.users uid (newUser uid) }) := by
  simp [get_user, h]

theorem update_user_present (s : BotState) (uid : Int) (u : User) (f : User → User)
    (h : dictGet s.users uid = some u) :
    update_user s uid f = { s with users := dictSet s.users uid (f u) } := by
  simp [update_user, h]

theorem update_user_absent (s : BotState) (uid : Int) (f : User → User)
    (h : dictGet s.users uid = none) : update_user s uid f = s := by
  simp [update_user, h]

theorem add_transaction_present (s : BotState) (uid : Int) (u : User)
    (a : ℚ) (ty d : String) (h : dictGet s.users uid = some u) :
    add_transaction s uid a ty d =
      { s with users := dictSet s.users uid (txApplied u a ty d) } := by
  unfold add_transaction
  rw [get_user_present s uid u h]
  exact update_user_present s uid u _ h

theorem add_transaction_absent (s : BotState) (uid : Int)
    (a : ℚ) (ty d : String) (h : dictGet s.users uid = none) :
    add_transaction s uid a ty d =
      { s with users := dictSet s.users uid (txApplied (newUser uid) a ty d) } := by
  unfold add_transaction
  rw [get_user_absent s uid h]
  rw [update_user_present _ uid (newUser uid) _ (dictGet_dictSet_self s.users uid (newUser uid))]
  simp [dictSet_dictSet, txApplied]

theorem gwb_received (s : BotState) (uid : Int) (u : User)
    (h : dictGet s.users uid = some u) (hw : u.welcomeBonusReceived = true) :
    give_welcome_bonus s uid = (false, s) := by
  unfold give_welcome_bonus
  rw [get_user_present s uid u h]
  simp [hw]

theorem gwb_not_received (s : BotState) (uid : Int) (u : User)
    (h : dictGet s.users uid = some u) (hw : u.welcomeBonusReceived = false) :
    give_welcome_bonus s uid =
      (true, { s with users := dictSet s.users uid (welcomeApplied u) }) := by
  unfold give_welcome_bonus
  rw [get_user_present s uid u h]
  simp only [hw, Bool.false_eq_true, if_false]
  rw [update_user_present s uid u _ h]
  rw [add_transaction_present _ uid _ 1 "credit" welcomeDescr
    (dictGet_dictSet_self s.users uid _)]
  simp [dictSet_dictSet, txApplied, welcomeApplied]

theorem gwb_absent (s : BotState) (uid : Int)
    (h : dictGet s.users uid = none) :
    give_welcome_bonus s uid =
      (true, { s with users := dictSet s.users uid (welcomeApplied (newUser uid)) }) := by
  unfold give_welcome_bonus
  rw [get_user_absent s uid h]
  simp only [newUser, Bool.false_eq_true, if_false]
  rw [update_user_present _ uid (newUser uid) _ (dictGet_dictSet_self s.users uid (newUser uid))]
  rw [add_transaction_present _ uid _ 1 "credit" welcomeDescr
    (dictGet_dictSet_self _ uid _)]
  simp [dictSet_dictSet, txApplied, welcomeApplied, newUser]

theorem ar_self (s : BotState) (x : Int) : add_referral s x x = (false, s) := by
  simp [add_referral]

theorem ar_already (s : BotState) (r d x : Int)
    (h : dictGet s.referrals d = some x) : add_referral s r d = (false, s) := by
  by_cases hrd : r = d
  · simp [add_referral, hrd]
  · simp [add_referral, hrd, h]

theorem ar_new (s : BotState) (r d : Int) (u : User)
    (hrd : r ≠ d) (hnone : dictGet s.referrals d = none)
    (hu : dictGet s.users r = some u) :
    add_referral s r d =
      (true, { s with referrals := dictSet s.referrals d r,
                      users := dictSet s.users r (referralApplied u d) }) := by
  have hu1 : dictGet ({ s with referrals := dictSet s.referrals d r } : BotState).users r = some u := hu
  unfold add_referral
  simp only [hrd, if_false, hnone, Option.isSome_none, Bool.false_eq_true]
  rw [get_user_present _ r u hu1]
  rw [update_user_present _ r u _ hu1]
  rw [add_transaction_present _ r _ 1 "credit" (refDescr d)
    (dictGet_dictSet_self _ r _)]
  simp [dictSet_dictSet, txApplied, referralApplied]

theorem ar_new_absent (s : BotState) (r d : Int)
    (hrd : r ≠ d) (hnone : dictGet s.referrals d = none)
    (hu : dictGet s.users r = none) :
    add_referral s r d =
      (true, { s with referrals := dictSet s.referrals d r,
                      users := dictSet s.users r (referralApplied (newUser r) d) }) := by
  have hu1 : dictGet ({ s with referrals := dictSet s.referrals d r } : BotState).users r = none := hu
  unfold add_referral
  simp only [hrd, if_false, hnone, Option.isSome_none, Bool.false_eq_true]
  rw [get_user_absent _ r hu1]
  rw [update_user_present _ r (newUser r) _ (dictGet_dictSet_self _ r _)]
  rw [add_transaction_present _ r _ 1 "credit" (refDescr d)
    (dictGet_dictSet_self _ r _)]
  simp [dictSet_dictSet, txApplied, referralApplied]

theorem wd_below (s : BotState) (uid : Int) (a : ℚ) (m : String)
    (h : a < 10) : withdraw_command s uid a m = (.belowMinimum, s) := by
  simp [withdraw_command, h]

theorem wd_insufficient (s : BotState) (uid : Int) (u : User) (a : ℚ) (m : String)
    (h10 : ¬ a < 10) (hu : dictGet s.users uid = some u) (hb : u.balance < a) :
    withdraw_command s uid a m = (.insufficient, s) := by
  unfold withdraw_command
  rw [if_neg h10, get_user_present s uid u hu]
  simp [hb]

theorem wd_insufficient_absent (s : BotState) (uid : Int) (a : ℚ) (m : String)
    (h10 : ¬ a < 10) (hu : dictGet s.users uid = none) :
    withdraw_command s uid a m =
      (.insufficient, { s with users := dictSet s.users uid (newUser uid) }) := by
  unfold withdraw_command
  rw [if_neg h10, get_user_absent s uid hu]
  have hba : (newUser uid).balance < a := by
    have h10a : (10 : ℚ) ≤ a := not_lt.mp h10
    simp only [newUser]
    linarith
  simp [hba]

theorem wd_accepted (s : BotState) (uid : Int) (u : User) (a : ℚ) (m : String)
    (h10 : ¬ a < 10) (hu : dictGet s.users uid = some u) (hb : ¬ u.balance < a) :
    withdraw_command s uid a m =
      (.accepted, { s with users := dictSet s.users uid (withdrawApplied u a m) }) := by
  unfold withdraw_command
  rw [if_neg h10, get_user_present s uid u hu]
  simp only [hb, if_false]
  rw [update_user_present s uid u _ hu]
  rw [add_transaction_present _ uid _ (-a) "withdrawal" _
    (dictGet_dictSet_self _ uid _)]
  simp [dictSet_dictSet, txApplied, withdrawApplied]

theorem txSum_append (ts₁ ts₂ : List Txn) :
    txSum (ts₁ ++ ts₂) = txSum ts₁ + txSum ts₂ := by
  simp [txSum]

theorem ledgerPair_zero : ledgerPair 0 [] := by
  refine ⟨by norm_num, [], by simp [txSum], by simp⟩

theorem ledgerPair_step (b : ℚ) (ts : List Txn) (tx : Txn)
    (h : ledgerPair b ts) :
    ledgerPair (b + tx.amount) (pruneTxns (ts ++ [tx])) := by
  obtain ⟨hlen, dr, hb, hdr⟩ := h
  by_cases h50 : ts.length = 50
  · cases ts with
    | nil => simp at h50
    | cons t0 ts2 =>
        have hl2 : ts2.length = 49 := by simpa using h50
        have hlen0 : ((t0 :: ts2) ++ [tx]).length = 51 := by
          simp [hl2]
        have hprune : pruneTxns ((t0 :: ts2) ++ [tx]) = ts2 ++ [tx] := by
          unfold pruneTxns
          rw [hlen0, if_pos (by norm_num)]
          simp
        rw [hprune]
        refine ⟨by simp [hl2], dr ++ [t0.amount], ?_, ?_⟩
        · have hts : txSum (t0 :: ts2) = t0.amount + txSum ts2 := by
            simp [txSum]
          rw [List.sum_append, txSum_append, hb, hts]
          simp [txSum]
          ring
        · intro _
          simp [hl2]
  · have hlt : ts.length < 50 := lt_of_le_of_ne hlen h50
    have hprune : pruneTxns (ts ++ [tx]) = ts ++ [tx] := by
      unfold pruneTxns
      rw [if_neg]
      simp only [List.length_append, List.length_cons, List.length_nil]
      omega
    rw [hprune]
    refine ⟨by simp; omega, dr, ?_, ?_⟩
    · rw [txSum_append, hb]
      simp [txSum]
      ring
    · intro hne
      exact absurd (hdr hne) h50

theorem userInv_newUser (uid : Int) : userInv (newUser uid) := by
  constructor
  · exact ledgerPair_zero
  · simp [newUser]

theorem userInv_welcome (u : User) (h : userInv u) :
    userInv (welcomeApplied u) := by
  obtain ⟨hp, hb⟩ := h
  constructor
  · have hstep := ledgerPair_step u.balance u.transactions
      { id := u.transactions.length + 1, amount := 1,
        txType := "credit", description := welcomeDescr } hp
    simpa [welcomeApplied] using hstep
  · simp only [welcomeApplied]
    linarith

theorem userInv_referral (u : User) (d : Int) (h : userInv u) :
    userInv (referralApplied u d) := by
  obtain ⟨hp, hb⟩ := h
  constructor
  · have hstep := ledgerPair_step u.balance u.transactions
      { id := u.transactions.length + 1, amount := 1,
        txType := "credit", description := refDescr d } hp
    simpa [referralApplied] using hstep
  · simp only [referralApplied]
    linarith

theorem userInv_withdraw (u : User) (a : ℚ) (m : String)
    (h : userInv u) (hba : ¬ u.balance < a) :
    userInv (withdrawApplied u a m) := by
  obtain ⟨hp, hb⟩ := h
  constructor
  · have hstep := ledgerPair_step u.balance u.transactions
      { id := u.transactions.length + 1, amount := -a,
        txType := "withdrawal", description := "Withdrawal via " ++ m } hp
    have heq : u.balance + (-a) = u.balance - a := by ring
    rw [heq] at hstep
    simpa [withdrawApplied] using hstep
  · simp only [withdrawApplied]
    have := not_lt.mp hba
    linarith

theorem userInv_gate (u : User) (h : userInv u) :
    userInv { u with hasJoinedChannels := true } := by
  obtain ⟨hp, hb⟩ := h
  exact ⟨hp, hb⟩

theorem usersInv_nil : usersInv [] := by
  intro k u h
  simp [dictGet] at h

theorem usersInv_set (l : List (Int × User)) (k : Int) (v : User)
    (hl : usersInv l) (hv : userInv v) : usersInv (dictSet l k v) := by
  intro j u hj
  by_cases hjk : j = k
  · rw [hjk, dictGet_dictSet_self] at hj
    cases hj
    exact hv
  · rw [dictGet_dictSet_ne l k j v hjk] at hj
    exact hl j u hj

theorem runOp_inv (s : BotState) (op : LedgerOp)
    (h : usersInv s.users) : usersInv (runOp s op).users := by
  cases op with
  | touch uid =>
      cases hg : dictGet s.users uid with
      | some u =>
          simp only [runOp, get_user_present s uid u hg]
          exact h
      | none =>
          simp only [runOp, get_user_absent s uid hg]
          exact usersInv_set _ _ _ h (userInv_newUser uid)
  | welcome uid =>
      cases hg : dictGet s.users uid with
      | some u =>
          cases hw : u.welcomeBonusReceived with
          | true =>
              simp only [runOp, gwb_received s uid u hg hw]
              exact h
          | false =>
              simp only [runOp, gwb_not_received s uid u hg hw]
              exact usersInv_set _ _ _ h (userInv_welcome u (h uid u hg))
      | none =>
          simp only [runOp, gwb_absent s uid hg]
          exact usersInv_set _ _ _ h (userInv_welcome _ (userInv_newUser uid))
  | referral r d =>
      by_cases hrd : r = d
      · rw [hrd]
        simp only [runOp, ar_self]
        exact h
      · cases href : dictGet s.referrals d with
        | some x =>
            simp only [runOp, ar_already s r d x href]
            exact h
        | none =>
            cases hg : dictGet s.users r with
            | some u =>
                simp only [runOp, ar_new s r d u hrd href hg]
                exact usersInv_set _ _ _ h (userInv_referral u d (h r u hg))
            | none =>
                simp only [runOp, ar_new_absent s r d hrd href hg]
                exact usersInv_set _ _ _ h (userInv_referral _ d (userInv_newUser r))
  | withdrawal uid a m =>
      by_cases h10 : a < 10
      · simp only [runOp, wd_below s uid a m h10]
        exact h
      · cases hg : dictGet s.users uid with
        | some u =>
            by_cases hb : u.balance < a
            · simp only [runOp, wd_insufficient s uid u a m h10 hg hb]
              exact h
            · simp only [runOp, wd_accepted s uid u a m h10 hg hb]
              exact usersInv_set _ _ _ h (userInv_withdraw u a m (h uid u hg) hb)
        | none =>
            simp only [runOp, wd_insufficient_absent s uid a m h10 hg]
            exact usersInv_set _ _ _ h (userInv_newUser uid)
  | gate uid =>
      cases hg : dictGet s.users uid with
      | some u =>
          simp only [runOp, update_user_present s uid u _ hg]
          exact usersInv_set _ _ _ h (userInv_gate u (h uid u hg))
      | none =>
          simp only [runOp, update_user_absent s uid _ hg]
          exact h
  | pendAdd r d =>
      simp only [runOp, add_pending_referral]
      exact h
  | pendRemove uid =>
      simp only [runOp, remove_pending_referral]
      exact h

theorem runOps_inv (ops : List LedgerOp) :
    ∀ s : BotState, usersInv s.users → usersInv (runOps s ops).users := by
  induction ops with
  | nil =>
      intro s h
      exact h
  | cons op t ih =>
      intro s h
      have hstep : runOps s (op :: t) = runOps (runOp s op) t := by
        simp [runOps]
      rw [hstep]
      exact ih (runOp s op) (runOp_inv s op h)

theorem pruneTxns_length (ts : List Txn) :
    (pruneTxns ts).length = min ts.length 50 := by
  unfold pruneTxns
  by_cases h : ts.length > 50
  · rw [if_pos h, List.length_drop]
    omega
  · rw [if_neg h]
    omega

theorem pruneTxns_getLast (ts : List Txn) (tx : Txn)
    (h : ts.length ≤ 50) :
    (pruneTxns (ts ++ [tx])).getLast? = some tx := by
  unfold pruneTxns
  by_cases h50 : (ts ++ [tx]).length > 50
  · rw [if_pos h50]
    have hk : (ts ++ [tx]).length - 50 ≤ ts.length := by
      simp only [List.length_append, List.length_cons, List.length_nil]
      omega
    rw [List.drop_append_of_le_length hk]
    exact List.getLast?_concat _
  · rw [if_neg h50]
    exact List.getLast?_concat _

theorem countDescr_append (ts₁ ts₂ : List Txn) (d : String) :
    countDescr (ts₁ ++ ts₂) d = countDescr ts₁ d + countDescr ts₂ d := by
  simp [countDescr, List.filter_append]

theorem countDescr_single (tx : Txn) (d : String) (hd : tx.description = d) :
    countDescr [tx] d = 1 := by
  simp [countDescr, List.filter, hd]

theorem countDescr_drop_le (ts : List Txn) (k : Nat) (d : String) :
    countDescr (ts.drop k) d ≤ countDescr ts d :=
  List.Sublist.length_le ((List.drop_sublist k ts).filter _)

theorem countDescr_step (ts : List Txn) (tx : Txn) (d : String)
    (hlen : ts.length ≤ 50) (h0 : countDescr ts d = 0)
    (hd : tx.description = d) :
    countDescr (pruneTxns (ts ++ [tx])) d = 1 := by
  unfold pruneTxns
  by_cases h50 : (ts ++ [tx]).length > 50
  · rw [if_pos h50]
    have hk : (ts ++ [tx]).length - 50 ≤ ts.length := by
      simp only [List.length_append, List.length_cons, List.length_nil]
      omega
    rw [List.drop_append_of_le_length hk, countDescr_append,
      countDescr_single tx d hd]
    have hle := countDescr_drop_le ts ((ts ++ [tx]).length - 50) d
    omega
  · rw [if_neg h50, countDescr_append, h0, countDescr_single tx d hd]

theorem findReferrer_honest (l : List (Int × User)) (uid : Int) (u : User)
    (code : String) :
    (uid, u) ∈ l → u.referralCode = code →
    (∀ p ∈ l, p.2.referralCode = code → p.1 = uid) →
    findReferrer l code = some uid := by
  induction l with
  | nil =>
      intro hm _ _
      simp at hm
  | cons p t ih =>
      intro hm hc honest
      by_cases hp : p.2.referralCode = code
      · have hkey := honest p (List.mem_cons_self p t) hp
        simp [findReferrer, hp, hkey]
      · have hmt : (uid, u) ∈ t := by
          rcases List.mem_cons.mp hm with he | ht
          · exfalso
            apply hp
            rw [← he]
            exact hc
          · exact ht
        rw [findReferrer, if_neg hp]
        exact ih hmt hc (fun q hq hqc => honest q (List.mem_cons_of_mem p hq) hqc)

/-- C4: self-referral is rejected unconditionally.  `add_referral X X`
returns false and leaves the state untouched, and presenting the caller's
own referral code in `start_command` creates no pending or completed
referral, changes nothing, and answers with an explicit rejection (the
self-referral message, or the already-referred message when the caller was
referred before).  The `honest` hypothesis states that the presented code
identifies only the caller, which holds for the `REF<id>` codes the
program derives from distinct user ids. -/
theorem C4_self_referral_rejected (s : BotState) (uid : Int) (u : User)
    (hu : dictGet s.users uid = some u)
    (honest : ∀ p ∈ s.users, p.2.referralCode = u.referralCode → p.1 = uid) :
    add_referral s uid uid = (false, s) ∧
    (handle_referral_code s uid u.referralCode).2 = s ∧
    ((handle_referral_code s uid u.referralCode).1 = RefCodeOutcome.selfReferral ∨
     (handle_referral_code s uid u.referralCode).1 = RefCodeOutcome.alreadyReferred) := by
  refine ⟨ar_self s uid, ?_⟩
  cases href : is_referred s uid with
  | true =>
      constructor
      · simp [handle_referral_code, href]
      · right
        simp [handle_referral_code, href]
  | false =>
      have hf : findReferrer s.users u.referralCode = some uid :=
        findReferrer_honest s.users uid u u.referralCode
          (dictGet_some_mem s.users uid u hu) rfl honest
      constructor
      · simp [handle_referral_code, href, hf]
      · left
        simp [handle_referral_code, href, hf]

/-- C4 witness: a concrete state with one user presenting their own code. -/
theorem C4_self_referral_rejected_witness :
    add_referral { users := [(5, newUser 5)], referrals := [], pendingReferrals := [] } 5 5 =
      (false, { users := [(5, newUser 5)], referrals := [], pendingReferrals := [] }) ∧
    (handle_referral_code { users := [(5, newUser 5)], referrals := [], pendingReferrals := [] }
        5 (newUser 5).referralCode).2 =
      { users := [(5, newUser 5)], referrals := [], pendingReferrals := [] } ∧
    ((handle_referral_code { users := [(5, newUser 5)], referrals := [], pendingReferrals := [] }
        5 (newUser 5).referralCode).1 = RefCodeOutcome.selfReferral ∨
     (handle_referral_code { users := [(5, newUser 5)], referrals := [], pendingReferrals := [] }
        5 (newUser 5).referralCode).1 = RefCodeOutcome.alreadyReferred) :=
  C4_self_referral_rejected _ 5 (newUser 5) (by rfl) (by with_unfolding_all decide)

/-- C7: at most one completed referral per referred user.  Once a completed
referral for `d` is stored, `add_referral` with any referrer (the same or a
different one) returns false and leaves the whole state, hence every
balance and transaction log, unchanged; and the referral-code block of
`start_command` answers `alreadyReferred` (the explicit message of
src/bot.py lines 887-891) without touching the state, whatever code is
presented. -/
theorem C7_single_completed_referral (s : BotState) (d r0 : Int)
    (h : dictGet s.referrals d = some r0) :
    (∀ r2 : Int, add_referral s r2 d = (false, s)) ∧
    (∀ code : String, handle_referral_code s d code = (RefCodeOutcome.alreadyReferred, s)) := by
  refine ⟨fun r2 => ar_already s r2 d r0 h, fun code => ?_⟩
  have hisref : is_referred s d = true := by
    simp [is_referred, h]
  simp [handle_referral_code, hisref]

/-- C7 witness: user 2 already referred by 1; referrer 9 retries. -/
theorem C7_single_completed_referral_witness :
    add_referral { users := [], referrals := [(2, 1)], pendingReferrals := [] } 9 2 =
      (false, { users := [], referrals := [(2, 1)], pendingReferrals := [] }) ∧
    handle_referral_code { users := [], referrals := [(2, 1)], pendingReferrals := [] } 2 "REF9" =
      (RefCodeOutcome.alreadyReferred,
       { users := [], referrals := [(2, 1)], pendingReferrals := [] }) := by
  have h := C7_single_completed_referral
    { users := [], referrals := [(2, 1)], pendingReferrals := [] } 2 1 (by rfl)
  exact ⟨h.1 9, h.2 "REF9"⟩

/-- C5 counterexample: the claim requires `satisfied = false` whenever a
probe returns an unknown or ambiguous status, but `check_single_channel`
treats every status outside `left` / `kicked` as membership, so a probe
returning the ambiguous `restricted` status (which Telegram also uses for
restricted non-members) opens the gate: the check is satisfied and the
unsatisfied list is empty. -/
theorem C5_ambiguous_status_opens_gate :
    check_single_channel (ProbeResult.status "restricted") = true ∧
    check_channel_membership [{ chatId := "@chan", name := "Chan" }]
      [ProbeResult.status "restricted"] = (true, []) := by
  exact ⟨by decide, by decide⟩

/-- C5 (amended): membership verification is fail-closed for probe errors
and timeouts — any channel whose probe raised, timed out, or returned the
`left` / `kicked` status makes the check unsatisfied and appears in the
unsatisfied list — and `satisfied = true` holds exactly when the
unsatisfied list is empty; but a probe that returns any other status
string, ambiguous or unknown ones included, counts as membership. -/
theorem C5_membership_failclosed (channels : List Channel) (probes : List ProbeResult) :
    ((check_channel_membership channels probes).1 = true ↔
      (check_channel_membership channels probes).2 = []) ∧
    (∀ c pr, (c, pr) ∈ channels.zip probes → check_single_channel pr = false →
      (check_channel_membership channels probes).1 = false ∧
      c ∈ (check_channel_membership channels probes).2) ∧
    check_single_channel ProbeResult.probeTimeout = false ∧
    check_single_channel ProbeResult.probeError = false ∧
    (∀ st : String, st ≠ "left" → st ≠ "kicked" →
      check_single_channel (ProbeResult.status st) = true) := by
  refine ⟨?_, ?_, by decide, by decide, ?_⟩
  · by_cases he : channels.isEmpty
    · simp [check_channel_membership, he]
    · simp only [check_channel_membership, he, if_false, Bool.false_eq_true]
      constructor
      · intro hl
        rw [← List.length_eq_zero]
        exact beq_iff_eq.mp hl
      · intro hl
        rw [hl]
        decide
  · intro c pr hmem hpr
    have he : channels.isEmpty = false := by
      cases channels with
      | nil => simp at hmem
      | cons a t => rfl
    have hfil : (c, pr) ∈ (channels.zip probes).filter
        (fun cr => ! check_single_channel cr.2) := by
      rw [List.mem_filter]
      exact ⟨hmem, by simp [hpr]⟩
    have hmap : c ∈ ((channels.zip probes).filter
        (fun cr => ! check_single_channel cr.2)).map Prod.fst :=
      List.mem_map.mpr ⟨(c, pr), hfil, rfl⟩
    have hne : ((channels.zip probes).filter
        (fun cr => ! check_single_channel cr.2)).map Prod.fst ≠ [] :=
      List.ne_nil_of_mem hmap
    constructor
    · simp only [check_channel_membership, he, if_false, Bool.false_eq_true]
      have : (((channels.zip probes).filter
          (fun cr => ! check_single_channel cr.2)).map Prod.fst).length ≠ 0 := by
        intro h0
        exact hne (List.length_eq_zero.mp h0)
      simpa using this
    · simp only [check_channel_membership, he, if_false, Bool.false_eq_true]
      exact hmap
  · intro st h1 h2
    simp [check_single_channel, h1, h2]

/-- C5 amended-theorem witness: one channel with a timed-out probe. -/
theorem C5_membership_failclosed_witness :
    (check_channel_membership [{ chatId := "@chan", name := "Chan" }]
        [ProbeResult.probeTimeout]).1 = false ∧
    { chatId := "@chan", name := "Chan" } ∈
      (check_channel_membership [{ chatId := "@chan", name := "Chan" }]
        [ProbeResult.probeTimeout]).2 :=
  (C5_membership_failclosed [{ chatId := "@chan", name := "Chan" }]
      [ProbeResult.probeTimeout]).2.1
    { chatId := "@chan", name := "Chan" } ProbeResult.probeTimeout
    (by decide) (by decide)

/-- C6: the claim says an expired pending referral (older than the 7-day
TTL) can never be promoted, in either storage backend.  The MongoDB
backend enforces this with a server-side TTL index (src/bot.py line 120,
`expireAfterSeconds=604800`, commented "Auto-delete after 7 days"), but the
file fallback writes only `referred_id: referrer_id` with no timestamp
(src/bot.py lines 350-358) and `_get_pending_referrer_sync` (lines 408-414)
performs a bare lookup with no expiry condition, so the verified branch
promotes the pending referral and credits the referrer no matter how long
ago the pending record was written — here a state holding only the stale
pending record (2 referred by 1) still yields a completed referral for 2
and a one-rupee referral credit on user 1. -/
theorem C6_stale_pending_still_promoted :
    verified_branch { users := [], referrals := [], pendingReferrals := [(2, 1)] } 2 =
      ((true, true),
        { users := [(2, welcomeApplied (newUser 2)), (1, referralApplied (newUser 1) 2)],
          referrals := [(2, 1)],
          pendingReferrals := [] }) := by
  with_unfolding_all rfl

/-- C9: balances never go negative.  Every user created by any interaction
history has a nonnegative balance; moreover a withdrawal below the 10-rupee
minimum is rejected with the state (so also the ledger) fully unchanged,
and a withdrawal exceeding the balance of an existing user is rejected with
the state fully unchanged. -/
theorem C9_balance_nonnegative :
    (∀ (ops : List LedgerOp) (uid : Int) (u : User),
      dictGet (runOps initialState ops).users uid = some u → 0 ≤ u.balance) ∧
    (∀ (s : BotState) (uid : Int) (a : ℚ) (m : String), a < 10 →
      withdraw_command s uid a m = (.belowMinimum, s)) ∧
    (∀ (s : BotState) (uid : Int) (u : User) (a : ℚ) (m : String),
      dictGet s.users uid = some u → ¬ a < 10 → u.balance < a →
      withdraw_command s uid a m = (.insufficient, s)) := by
  refine ⟨?_, wd_below, fun s uid u a m hu h10 hb => wd_insufficient s uid u a m h10 hu hb⟩
  intro ops uid u h
  have hinv : usersInv (runOps initialState ops).users :=
    runOps_inv ops initialState usersInv_nil
  exact (hinv uid u h).2

/-- C9 witness: the invariant after one welcome bonus, a rejected
below-minimum withdrawal, and a rejected over-balance withdrawal. -/
theorem C9_balance_nonnegative_witness :
    (0 : ℚ) ≤ (welcomeApplied (newUser 1)).balance ∧
    withdraw_command initialState 1 5 "upi" = (.belowMinimum, initialState) ∧
    withdraw_command { users := [(1, newUser 1)], referrals := [], pendingReferrals := [] }
        1 20 "upi" =
      (.insufficient, { users := [(1, newUser 1)], referrals := [], pendingReferrals := [] }) :=
  ⟨C9_balance_nonnegative.1 [LedgerOp.welcome 1] 1 (welcomeApplied (newUser 1)) (by rfl),
   C9_balance_nonnegative.2.1 initialState 1 5 "upi" (by norm_num),
   C9_balance_nonnegative.2.2 _ 1 (newUser 1) 20 "upi" (by rfl) (by norm_num)
     (by norm_num [newUser])⟩

/-- C10: with no configured channels, `check_channel_membership` returns
`satisfied = true` with an empty unsatisfied list for every user, whatever
the probe layer would have answered (no probe is consulted), and the
verified branch of `start_command` then runs: a fresh user receives the
welcome bonus and their pending referral is promoted without joining
anything. -/
theorem C10_empty_channels_vacuous (probes : List ProbeResult) (s : BotState)
    (uid r : Int)
    (hu : dictGet s.users uid = none) (hr : dictGet s.users r = none)
    (hp : dictGet s.pendingReferrals uid = some r)
    (hr0 : r ≠ 0) (hru : r ≠ uid)
    (hnr : dictGet s.referrals uid = none) :
    check_channel_membership [] probes = (true, []) ∧
    (startGate s uid [] probes).1 = (true, true) ∧
    dictGet (startGate s uid [] probes).2.referrals uid = some r ∧
    dictGet (startGate s uid [] probes).2.users uid =
      some (welcomeApplied (newUser uid)) := by
  have hchk : check_channel_membership [] probes = (true, []) := by
    simp [check_channel_membership]
  have hsg : startGate s uid [] probes = verified_branch s uid := by
    unfold startGate
    rw [hchk]
    simp
  have h1 : update_user s uid (fun v => { v with hasJoinedChannels := true }) = s :=
    update_user_absent s uid _ hu
  have h2 := gwb_absent s uid hu
  set s2 : BotState :=
    { s with users := dictSet s.users uid (welcomeApplied (newUser uid)) } with hs2def
  have hpend : get_pending_referrer s2 uid = some r := hp
  have hrefs2 : dictGet s2.referrals uid = none := hnr
  have hisref : is_referred s2 uid = false := by
    show (dictGet s2.referrals uid).isSome = false
    rw [hrefs2]
    rfl
  have hus2 : dictGet s2.users r = none := by
    show dictGet (dictSet s.users uid (welcomeApplied (newUser uid))) r = none
    rw [dictGet_dictSet_ne s.users uid r _ hru]
    exact hr
  have har := ar_new_absent s2 r uid hru hrefs2 hus2
  have hvb : verified_branch s uid =
      ((true, true), remove_pending_referral
        { s2 with referrals := dictSet s2.referrals uid r,
                  users := dictSet s2.users r (referralApplied (newUser r) uid) } uid) := by
    unfold verified_branch
    rw [h1]
    simp only [h2, hpend, hisref, har, hr0, ne_eq, not_false_eq_true, and_true,
      if_true, ite_true]
  refine ⟨hchk, ?_, ?_, ?_⟩
  · rw [hsg, hvb]
  · rw [hsg, hvb]
    show dictGet (dictSet s2.referrals uid r) uid = some r
    exact dictGet_dictSet_self s2.referrals uid r
  · rw [hsg, hvb]
    show dictGet (dictSet s2.users r (referralApplied (newUser r) uid)) uid =
      some (welcomeApplied (newUser uid))
    rw [dictGet_dictSet_ne s2.users r uid _ (Ne.symm hru)]
    exact dictGet_dictSet_self s.users uid (welcomeApplied (newUser uid))

/-- C10 witness: no channels, a fresh user 2 with pending referrer 1. -/
theorem C10_empty_channels_vacuous_witness :
    check_channel_membership [] [ProbeResult.probeError] = (true, []) ∧
    (startGate { users := [], referrals := [], pendingReferrals := [(2, 1)] } 2 []
        [ProbeResult.probeError]).1 = (true, true) ∧
    dictGet (startGate { users := [], referrals := [], pendingReferrals := [(2, 1)] } 2 []
        [ProbeResult.probeError]).2.referrals 2 = some 1 ∧
    dictGet (startGate { users := [], referrals := [], pendingReferrals := [(2, 1)] } 2 []
        [ProbeResult.probeError]).2.users 2 = some (welcomeApplied (newUser 2)) :=
  C10_empty_channels_vacuous [ProbeResult.probeError]
    { users := [], referrals := [], pendingReferrals := [(2, 1)] } 2 1
    (by rfl) (by rfl) (by rfl) (by norm_num) (by norm_num) (by rfl)

set_option maxRecDepth 100000 in
set_option maxHeartbeats 2000000 in
/-- C1 counterexample: the claim demands `balance = sum of the stored
transactions` even after more than 50 transactions, but after 51 referral
credits the stored list has been pruned to 50 entries summing to 50 while
the balance is 51. -/
theorem C1_pruning_breaks_stored_sum :
    (dictGet (runOps initialState ((List.range 51).map
        (fun i => LedgerOp.referral 1 (100 + (i : Int))))).users 1).map
      (fun u => (u.balance, txSum u.transactions)) = some (51, 50) ∧
    (51 : ℚ) ≠ 50 := by
  constructor
  · with_unfolding_all decide
  · norm_num

/-- C1 (amended): for every user and every interaction history, the balance
equals the sum of the stored transaction amounts plus the amounts of some
pruned-away prefix, and that prefix is empty unless the stored log sits at
its 50-entry cap; in particular `balance = sum of the stored transactions`
holds at every observation point at which the user's stored log has fewer
than 50 entries, i.e. until pruning can have occurred. -/
theorem C1_balance_consistency (ops : List LedgerOp) (uid : Int) (u : User)
    (h : dictGet (runOps initialState ops).users uid = some u) :
    (∃ dr : List ℚ, u.balance = dr.sum + txSum u.transactions ∧
      (dr ≠ [] → u.transactions.length = 50)) ∧
    (u.transactions.length < 50 → u.balance = txSum u.transactions) := by
  have hinv : usersInv (runOps initialState ops).users :=
    runOps_inv ops initialState usersInv_nil
  obtain ⟨⟨hlen, dr, hb, hdr⟩, _⟩ := hinv uid u h
  refine ⟨⟨dr, hb, hdr⟩, ?_⟩
  intro hlt
  cases dr with
  | nil => simpa using hb
  | cons a t =>
      exfalso
      have h50 := hdr (by simp)
      omega

/-- C1 amended-theorem witness: the user after a single welcome bonus. -/
theorem C1_balance_consistency_witness :
    (∃ dr : List ℚ, (welcomeApplied (newUser 1)).balance =
        dr.sum + txSum (welcomeApplied (newUser 1)).transactions ∧
      (dr ≠ [] → (welcomeApplied (newUser 1)).transactions.length = 50)) ∧
    ((welcomeApplied (newUser 1)).transactions.length < 50 →
      (welcomeApplied (newUser 1)).balance = txSum (welcomeApplied (newUser 1)).transactions) :=
  C1_balance_consistency [LedgerOp.welcome 1] 1 (welcomeApplied (newUser 1)) (by rfl)

set_option maxRecDepth 100000 in
set_option maxHeartbeats 2000000 in
/-- C8 counterexample: the claim demands that each new transaction id be
strictly greater than every previously assigned id even after the log has
been pruned to 50 entries, but the id is computed as `len(transactions)+1`,
so the 51st appended transaction gets id 51 and — after pruning holds the
list at 50 entries — the 52nd appended transaction gets id 51 again, which
is not strictly greater than 51. -/
theorem C8_pruned_log_repeats_id :
    (dictGet (txIter initialState 1 51).users 1).map
      (fun u => u.transactions.getLast?.map Txn.id) = some (some 51) ∧
    (dictGet (txIter initialState 1 52).users 1).map
      (fun u => u.transactions.getLast?.map Txn.id) = some (some 51) ∧
    ¬ (51 : Nat) > 51 := by
  refine ⟨by with_unfolding_all decide, by with_unfolding_all decide, by norm_num⟩

/-- C8 (amended): transaction ids grow strictly for the first 51 appends of
a user — the nth appended transaction receives id `min n 51`, and the
stored log holds `min n 50` entries — but from the 52nd append on every new
transaction receives the constant id 51, because the id is the pruned log
length plus one. -/
theorem C8_txn_id_is_min (n : Nat) (hn : 1 ≤ n) :
    ∃ u : User, dictGet (txIter initialState 1 n).users 1 = some u ∧
      u.transactions.length = min n 50 ∧
      u.transactions.getLast?.map Txn.id = some (min n 51) := by
  induction n, hn using Nat.le_induction with
  | base =>
      refine ⟨txApplied (newUser 1) 1 "credit" "tx", by rfl, by rfl, by rfl⟩
  | succ n hn ih =>
      obtain ⟨u, hu, hlen, _⟩ := ih
      have hstep : txIter initialState 1 (n + 1) =
          add_transaction (txIter initialState 1 n) 1 1 "credit" "tx" := rfl
      have hadd := add_transaction_present (txIter initialState 1 n) 1 u 1 "credit" "tx" hu
      have hle : u.transactions.length ≤ 50 := by omega
      refine ⟨txApplied u 1 "credit" "tx", ?_, ?_, ?_⟩
      · rw [hstep, hadd]
        exact dictGet_dictSet_self _ 1 _
      · simp only [txApplied]
        rw [pruneTxns_length]
        simp only [List.length_append, List.length_cons, List.length_nil]
        omega
      · simp only [txApplied]
        rw [pruneTxns_getLast _ _ hle]
        show some (u.transactions.length + 1) = some (min (n + 1) 51)
        rw [hlen]
        congr 1
        omega

/-- C8 amended-theorem witness: the third appended transaction has id 3. -/
theorem C8_txn_id_is_min_witness :
    ∃ u : User, dictGet (txIter initialState 1 3).users 1 = some u ∧
      u.transactions.length = min 3 50 ∧
      u.transactions.getLast?.map Txn.id = some (min 3 51) :=
  C8_txn_id_is_min 3 (by norm_num)

/-- C2: promotion of a referral is idempotent.  For a pair (r, d) with no
completed referral for d yet (and, in the claim's scenario, a fresh
referrer r whose log is below the cap and holds no bonus transaction for d
yet), the first `add_referral` returns true, records exactly one completed
referral for d, and credits the referrer with exactly one +1 referral-bonus
transaction; every later invocation returns false and leaves the state —
hence the referrer's balance — completely unchanged. -/
theorem C2_referral_promotion_idempotent (s : BotState) (r d : Int) (u : User)
    (hrd : r ≠ d) (hnone : dictGet s.referrals d = none)
    (hu : dictGet s.users r = some u)
    (hlen : u.transactions.length ≤ 50)
    (hcnt : countDescr u.transactions (refDescr d) = 0) :
    (add_referral s r d).1 = true ∧
    countKey (add_referral s r d).2.referrals d = 1 ∧
    dictGet (add_referral s r d).2.users r = some (referralApplied u d) ∧
    (referralApplied u d).balance = u.balance + 1 ∧
    countDescr (referralApplied u d).transactions (refDescr d) = 1 ∧
    (∀ n : Nat, arIter (add_referral s r d).2 r d n = (add_referral s r d).2) ∧
    add_referral (add_referral s r d).2 r d = (false, (add_referral s r d).2) := by
  have har := ar_new s r d u hrd hnone hu
  have hsome : dictGet (add_referral s r d).2.referrals d = some r := by
    rw [har]
    exact dictGet_dictSet_self s.referrals d r
  have hfix : add_referral (add_referral s r d).2 r d = (false, (add_referral s r d).2) :=
    ar_already _ r d r hsome
  refine ⟨by rw [har], ?_, ?_, by simp [referralApplied], ?_, ?_, hfix⟩
  · rw [har]
    show countKey (dictSet s.referrals d r) d = 1
    rw [dictSet_of_none s.referrals d r hnone, countKey_append,
      countKey_of_none s.referrals d hnone]
    simp [countKey]
  · rw [har]
    exact dictGet_dictSet_self s.users r _
  · simp only [referralApplied]
    exact countDescr_step u.transactions _ (refDescr d) hlen hcnt rfl
  · intro n
    induction n with
    | zero => rfl
    | succ m ihm =>
        show (add_referral (arIter (add_referral s r d).2 r d m) r d).2 =
          (add_referral s r d).2
        rw [ihm, hfix]

/-- C2 witness: referrer 1 (fresh), referred 2, two retries. -/
theorem C2_referral_promotion_idempotent_witness :
    (add_referral { users := [(1, newUser 1)], referrals := [], pendingReferrals := [] } 1 2).1 = true ∧
    countKey (add_referral { users := [(1, newUser 1)], referrals := [], pendingReferrals := [] } 1 2).2.referrals 2 = 1 ∧
    dictGet (add_referral { users := [(1, newUser 1)], referrals := [], pendingReferrals := [] } 1 2).2.users 1 =
      some (referralApplied (newUser 1) 2) ∧
    (referralApplied (newUser 1) 2).balance = (newUser 1).balance + 1 ∧
    countDescr (referralApplied (newUser 1) 2).transactions (refDescr 2) = 1 ∧
    arIter (add_referral { users := [(1, newUser 1)], referrals := [], pendingReferrals := [] } 1 2).2 1 2 2 =
      (add_referral { users := [(1, newUser 1)], referrals := [], pendingReferrals := [] } 1 2).2 ∧
    add_referral (add_referral { users := [(1, newUser 1)], referrals := [], pendingReferrals := [] } 1 2).2 1 2 =
      (false, (add_referral { users := [(1, newUser 1)], referrals := [], pendingReferrals := [] } 1 2).2) := by
  have h := C2_referral_promotion_idempotent
    { users := [(1, newUser 1)], referrals := [], pendingReferrals := [] } 1 2 (newUser 1)
    (by norm_num) (by rfl) (by rfl) (by decide) (by rfl)
  exact ⟨h.1, h.2.1, h.2.2.1, h.2.2.2.1, h.2.2.2.2.1, h.2.2.2.2.2.1 2, h.2.2.2.2.2.2⟩

/-- C3: the welcome bonus is paid at most once.  For a user whose
`welcome_bonus_received` flag is unset (with a log below the cap holding no
welcome-bonus transaction yet, as for every real user), the first
`give_welcome_bonus` returns true, adds exactly one +1 welcome-bonus credit
transaction, and raises balance and `total_earned` by exactly 1; every
later call — however often the onboarding flow reruns — returns false and
leaves the state, and so the balance, `total_earned` and the transaction
log, completely unchanged. -/
theorem C3_welcome_bonus_at_most_once (s : BotState) (uid : Int) (u : User)
    (hu : dictGet s.users uid = some u) (hw : u.welcomeBonusReceived = false)
    (hlen : u.transactions.length ≤ 50)
    (hcnt : countDescr u.transactions welcomeDescr = 0) :
    (give_welcome_bonus s uid).1 = true ∧
    dictGet (give_welcome_bonus s uid).2.users uid = some (welcomeApplied u) ∧
    (welcomeApplied u).balance = u.balance + 1 ∧
    (welcomeApplied u).totalEarned = u.totalEarned + 1 ∧
    countDescr (welcomeApplied u).transactions welcomeDescr = 1 ∧
    (∀ n : Nat, wbIter (give_welcome_bonus s uid).2 uid n = (give_welcome_bonus s uid).2) ∧
    give_welcome_bonus (give_welcome_bonus s uid).2 uid =
      (false, (give_welcome_bonus s uid).2) := by
  have hgw := gwb_not_received s uid u hu hw
  have hu2 : dictGet (give_welcome_bonus s uid).2.users uid = some (welcomeApplied u) := by
    rw [hgw]
    exact dictGet_dictSet_self s.users uid _
  have hflag : (welcomeApplied u).welcomeBonusReceived = true := by
    simp [welcomeApplied]
  have hfix : give_welcome_bonus (give_welcome_bonus s uid).2 uid =
      (false, (give_welcome_bonus s uid).2) :=
    gwb_received _ uid (welcomeApplied u) hu2 hflag
  refine ⟨by rw [hgw], hu2, by simp [welcomeApplied], by simp [welcomeApplied], ?_, ?_, hfix⟩
  · simp only [welcomeApplied]
    exact countDescr_step u.transactions _ welcomeDescr hlen hcnt rfl
  · intro n
    induction n with
    | zero => rfl
    | succ m ihm =>
        show (give_welcome_bonus (wbIter (give_welcome_bonus s uid).2 uid m) uid).2 =
          (give_welcome_bonus s uid).2
        rw [ihm, hfix]

/-- C3 witness: a fresh user 7, two reruns of the bonus path. -/
theorem C3_welcome_bonus_at_most_once_witness :
    (give_welcome_bonus { users := [(7, newUser 7)], referrals := [], pendingReferrals := [] } 7).1 = true ∧
    dictGet (give_welcome_bonus { users := [(7, newUser 7)], referrals := [], pendingReferrals := [] } 7).2.users 7 =
      some (welcomeApplied (newUser 7)) ∧
    (welcomeApplied (newUser 7)).balance = (newUser 7).balance + 1 ∧
    (welcomeApplied (newUser 7)).totalEarned = (newUser 7).totalEarned + 1 ∧
    countDescr (welcomeApplied (newUser 7)).transactions welcomeDescr = 1 ∧
    wbIter (give_welcome_bonus { users := [(7, newUser 7)], referrals := [], pendingReferrals := [] } 7).2 7 2 =
      (give_welcome_bonus { users := [(7, newUser 7)], referrals := [], pendingReferrals := [] } 7).2 ∧
    give_welcome_bonus (give_welcome_bonus { users := [(7, newUser 7)], referrals := [], pendingReferrals := [] } 7).2 7 =
      (false, (give_welcome_bonus { users := [(7, newUser 7)], referrals := [], pendingReferrals := [] } 7).2) := by
  have h := C3_welcome_bonus_at_most_once
    { users := [(7, newUser 7)], referrals := [], pendingReferrals := [] } 7 (newUser 7)
    (by rfl) (by rfl) (by decide) (by rfl)
  exact ⟨h.1, h.2.1, h.2.2.1, h.2.2.2.1, h.2.2.2.2.1, h.2.2.2.2.2.1 2, h.2.2.2.2.2.2⟩

end RefBot
